import Mathlib

/-!
Shallow embedding of the `ark-ec-vrfs` repository core:

* `src/utils.rs` — Try-And-Increment hash-to-curve (`hash_to_curve_tai`);
* `src/ring.rs`  — ring-VRF orchestration (`ring_sign`, `ring_verify`,
  `RingContext` key derivation and prover/verifier construction).

The elliptic-curve library (`ark_ec` / `ark_serialize`), the hash functions,
the Pedersen (blinded-VRF) primitives and the `ring_proof` polynomial-IOP
library are external black boxes for the repository: the embedding keeps them
as abstract operations bundled in suite/configuration structures, and states
their documented contracts as explicit hypotheses where a claim needs them.
-/

namespace ArkEcVrfs

/-! ## Hash-to-curve (Try-And-Increment), from `src/utils.rs` -/

/-- The suite configuration seen by the generic `hash_to_curve_tai::<S>`:
the `Suite` trait constants (`SUITE_ID`, `hash`) together with the operations
of the associated affine point type that the function invokes
(`MODULUS_BIT_SIZE` of the base prime field, compressed deserialization,
cofactor clearing, and the curve/subgroup membership tests used by the
repository's own test). -/
structure HSuite where
  Point : Type
  suiteId : UInt8
  hash : List UInt8 → List UInt8
  modulusBitSize : Nat
  deserialize : List UInt8 → Option Point
  clearCofactor : Point → Point
  isOnCurve : Point → Bool
  isInSubgroup : Point → Bool

/-- `mod_size` from the source: `MODULUS_BIT_SIZE as usize / 8`
(integer, i.e. floor, division). -/
def HSuite.modSize (S : HSuite) : Nat := S.modulusBitSize / 8

/-- The buffer hashed at counter `ctr`:
`[S::SUITE_ID, DOM_SEP_FRONT] || data || [ctr as u8, DOM_SEP_BACK]`
with `DOM_SEP_FRONT = 0x01` and `DOM_SEP_BACK = 0x00`. -/
def taiBuf (S : HSuite) (data : List UInt8) (ctr : Nat) : List UInt8 :=
  [S.suiteId, 0x01] ++ data ++ [UInt8.ofNat ctr, 0x00]

/-- The `for ctr in 0..256` loop of `hash_to_curve_tai`, instrumented with the
number of loop iterations executed (second component). Each iteration hashes
the buffer; a digest shorter than `mod_size` returns `None` at once; a
successful compressed decode returns the decoded point with its cofactor
cleared; otherwise the next counter is tried. `fuel` is the number of counters
still available (256 at the top-level call). -/
def taiFrom (S : HSuite) (data : List UInt8) : Nat → Nat → Option S.Point × Nat
  | _, 0 => (none, 0)
  | ctr, fuel + 1 =>
    let h := S.hash (taiBuf S data ctr)
    if h.length < S.modSize then (none, 1)
    else
      match S.deserialize h with
      | some pt => (some (S.clearCofactor pt), 1)
      | none =>
        let r := taiFrom S data (ctr + 1) fuel
        (r.1, r.2 + 1)

/-- `hash_to_curve_tai` from `src/utils.rs`: the result of the 256-counter
Try-And-Increment loop started at counter 0. -/
def hash_to_curve_tai (S : HSuite) (data : List UInt8) : Option S.Point :=
  (taiFrom S data 0 256).1

/-- Number of loop iterations (equivalently, hash invocations) executed by
`hash_to_curve_tai` before it returns. -/
def taiIterations (S : HSuite) (data : List UInt8) : Nat :=
  (taiFrom S data 0 256).2

/-- The algorithm exactly as the claim words it (spec §4.2 main path): iterate
`ctr` over `0..256`; build the buffer, hash it, attempt to decode the digest
as a compressed curve point; on the first successful decode return that point
multiplied by the cofactor; if no counter yields a decodable point return
`none`. (No digest-length guard appears in this description.) -/
def taiClaimFrom (S : HSuite) (data : List UInt8) : Nat → Nat → Option S.Point
  | _, 0 => none
  | ctr, fuel + 1 =>
    match S.deserialize (S.hash (taiBuf S data ctr)) with
    | some pt => some (S.clearCofactor pt)
    | none => taiClaimFrom S data (ctr + 1) fuel

/-- The claim-side description of `hash_to_curve`, started at counter 0. -/
def taiClaim (S : HSuite) (data : List UInt8) : Option S.Point :=
  taiClaimFrom S data 0 256

/-! ## Ring-VRF orchestration, from `src/ring.rs` -/

/-- Modelled from the spec: the crate's `Error` type is not under `src/`;
spec §7 states a single failure kind, `VerificationFailure`, covering every
rejection on the verify path. -/
inductive Error where
  | VerificationFailure
  deriving DecidableEq, Repr

/-- The `ark_ec::short_weierstrass::Affine` representation used by the ring
proof side (`BaseAffine<S>` in `src/ring.rs`): affine coordinates plus an
infinity flag. -/
structure BaseAffine (F : Type) where
  x : F
  y : F
  infinity : Bool
  deriving DecidableEq, Repr

/-- `Affine::new_unchecked(x, y)` from `ark_ec`: builds the point with the
given coordinates and `infinity = false`, performing no on-curve or subgroup
validation. -/
def BaseAffine.new_unchecked {F : Type} (x y : F) : BaseAffine F :=
  { x := x, y := y, infinity := false }

/-- `Signature<S, P>` from `src/ring.rs`: the Pedersen (blinded-VRF)
signature together with the ring proof. -/
structure Signature (PedSig RingProofTy : Type) where
  vrf_signature : PedSig
  ring_proof : RingProofTy

/-- The abstract operations `src/ring.rs` consumes. Types: base field `F`,
VRF `Input`, associated data `AD`, secret keys, Pedersen signatures, blinding
scalars, ring proofs, ring prover/verifier states, the VRF-side affine point
type (`CommitPoint`), KZG setup parameters, PIOP parameters, prover/verifier
keys and transcripts.

The operation fields model external or not-under-`src/` code:
* `pedersenSign` / `pedersenVerify` / `keyCommitment` — modelled from the
  spec: the Pedersen (blinded-VRF) module is not under `src/`; spec §4.3
  gives its contract: `sign : (SecretKey, Input, ad) → (BlindedSignature,
  BlindingSecret)`, `verify : (Input, ad, BlindedSignature) → valid/invalid`
  (failing with the single `VerificationFailure` kind), plus an accessor for
  the embedded key-commitment point.
* `xy` — `AffineRepr::xy()` from `ark_ec`: the affine coordinates of a
  point, `none` exactly for the group identity (point at infinity).
* `prove` — `RingProver::prove` of the external `ring_proof` library.
* `verifyRingProof` — `RingVerifier::verify_ring_proof` of `ring_proof`.
* `indexFn` / `domainOf` / `paddingPoint` — components of the external
  `ring_proof::index`, see `index` below.
* `proverInit` / `verifierInit` / `transcriptNew` — `RingProver::init`,
  `RingVerifier::init` and `merlin::Transcript::new`. -/
structure Ark where
  F : Type
  Input : Type
  AD : Type
  Secret : Type
  PedSig : Type
  Blinding : Type
  RingProofTy : Type
  ProverSt : Type
  VerifierSt : Type
  CommitPoint : Type
  PcsParams : Type
  PiopParams : Type
  PK : Type
  VK : Type
  Transcript : Type
  pedersenSign : Secret → Input → AD → PedSig × Blinding
  pedersenVerify : Input → AD → PedSig → Except Error Unit
  keyCommitment : PedSig → CommitPoint
  xy : CommitPoint → Option (F × F)
  publicOf : Secret → BaseAffine F
  prove : ProverSt → Blinding → RingProofTy
  verifyRingProof : VerifierSt → RingProofTy → BaseAffine F → Bool
  indexFn : PcsParams → PiopParams → List (BaseAffine F) → PK × VK
  domainOf : PiopParams → Nat
  paddingPoint : PiopParams → BaseAffine F
  proverInit : PK → PiopParams → Nat → Transcript → ProverSt
  verifierInit : VK → PiopParams → Transcript → VerifierSt
  transcriptNew : String → Transcript

/-- `ring_sign` from `src/ring.rs` (`RingSigner for Secret<S>`): run Pedersen
signing to get the VRF signature and the fresh blinding secret, generate the
ring proof over that blinding secret, and return the pair. Total: there is no
error outcome. -/
def ring_sign (A : Ark) (secret : A.Secret) (input : A.Input) (ad : A.AD)
    (ring_prover : A.ProverSt) : Signature A.PedSig A.RingProofTy :=
  let sb := A.pedersenSign secret input ad
  { vrf_signature := sb.1, ring_proof := A.prove ring_prover sb.2 }

/-- `ring_verify` from `src/ring.rs` (`RingVerifier for Public<S>`):
1. Pedersen-verify `sig.vrf_signature` against `(input, ad)`, propagating its
   error (`?`);
2. extract the key commitment and its affine coordinates, failing with
   `VerificationFailure` when there are none (identity point);
3. rebuild the point with `BaseAffine::new_unchecked` and run ring-proof
   verification, failing with `VerificationFailure` on a negative answer. -/
def ring_verify (A : Ark) (input : A.Input) (ad : A.AD)
    (sig : Signature A.PedSig A.RingProofTy) (verifier : A.VerifierSt) :
    Except Error Unit :=
  match A.pedersenVerify input ad sig.vrf_signature with
  | .error e => .error e
  | .ok _ =>
    match A.xy (A.keyCommitment sig.vrf_signature) with
    | none => .error Error.VerificationFailure
    | some xypair =>
      let key_commitment := BaseAffine.new_unchecked xypair.1 xypair.2
      if A.verifyRingProof verifier sig.ring_proof key_commitment then
        .ok ()
      else
        .error Error.VerificationFailure

/-- Modelled from the spec: `ring_proof::index` is an external black box; spec
§4.4 gives its contract: pad the ring members to the context's domain size
with a fixed public padding point, then commit/index the padded list — a
deterministic function of (parameters, ordered list) — and reject a ring
whose size exceeds the domain size at construction time (caller error). The
rejection is modelled as `none`. -/
def index (A : Ark) (pcs : A.PcsParams) (piop : A.PiopParams)
    (pks : List (BaseAffine A.F)) : Option (A.PK × A.VK) :=
  if A.domainOf piop < pks.length then none
  else
    some (A.indexFn pcs piop
      (pks ++ List.replicate (A.domainOf piop - pks.length) (A.paddingPoint piop)))

/-- `RingContext<S, P>` from `src/ring.rs`: KZG setup parameters, PIOP
parameters and the domain size. -/
structure RingContext (A : Ark) where
  pcs_params : A.PcsParams
  piop_params : A.PiopParams
  domain_size : Nat

/-- `RingContext::prover_key`: first component of `ring_proof::index` on the
context's parameters and the given ring public keys. -/
def RingContext.prover_key {A : Ark} (ctx : RingContext A)
    (pks : List (BaseAffine A.F)) : Option A.PK :=
  (index A ctx.pcs_params ctx.piop_params pks).map Prod.fst

/-- `RingContext::verifier_key`: second component of the same
`ring_proof::index` call. -/
def RingContext.verifier_key {A : Ark} (ctx : RingContext A)
    (pks : List (BaseAffine A.F)) : Option A.VK :=
  (index A ctx.pcs_params ctx.piop_params pks).map Prod.snd

/-- `RingContext::prover`: `RingProver::init` with the prover key, the PIOP
parameters, the key index, and a fresh transcript labelled `"ring-vrf"`.
No validation of `key_index` is performed. -/
def RingContext.prover {A : Ark} (ctx : RingContext A) (prover_key : A.PK)
    (key_index : Nat) : A.ProverSt :=
  A.proverInit prover_key ctx.piop_params key_index (A.transcriptNew "ring-vrf")

/-- `RingContext::verifier`: `RingVerifier::init` with the verifier key, the
PIOP parameters, and a fresh transcript labelled `"ring-vrf"`. -/
def RingContext.verifier {A : Ark} (ctx : RingContext A) (verifier_key : A.VK) :
    A.VerifierSt :=
  A.verifierInit verifier_key ctx.piop_params (A.transcriptNew "ring-vrf")

/-! ## Concrete instantiations used to evaluate the definitions -/

/-- A one-point suite whose hash has 2-byte digests, whose base prime field
has an 8-bit modulus (`mod_size = 1`), and whose deserializer accepts every
digest. -/
def unitSuite : HSuite where
  Point := Unit
  suiteId := 0
  hash := fun _ => [0, 0]
  modulusBitSize := 8
  deserialize := fun _ => some ()
  clearCofactor := id
  isOnCurve := fun _ => true
  isInSubgroup := fun _ => true

/-- A suite over a 15-bit-modulus base prime field (modulus byte length 2,
`mod_size = 15 / 8 = 1`) whose hash has 1-byte digests and whose deserializer
accepts every digest. -/
def fifteenBitSuite : HSuite where
  Point := Unit
  suiteId := 0
  hash := fun _ => [0]
  modulusBitSize := 15
  deserialize := fun _ => some ()
  clearCofactor := id
  isOnCurve := fun _ => true
  isInSubgroup := fun _ => true

/-- A suite over a 16-bit-modulus base prime field (`mod_size = 2`) whose
hash has 1-byte digests: every digest is shorter than `mod_size`. -/
def shortHashSuite : HSuite where
  Point := Unit
  suiteId := 0
  hash := fun _ => [0]
  modulusBitSize := 16
  deserialize := fun _ => some ()
  clearCofactor := id
  isOnCurve := fun _ => true
  isInSubgroup := fun _ => true

/-- A concrete ring-VRF configuration with trivial carrier types, in which
Pedersen verification always accepts, the key commitment always has affine
coordinates `(false, false)`, and ring-proof verification returns the fixed
answer `rv`. -/
def toy (rv : Bool) : Ark where
  F := Bool
  Input := Bool
  AD := Bool
  Secret := Bool
  PedSig := Unit
  Blinding := Unit
  RingProofTy := Unit
  ProverSt := Unit
  VerifierSt := Unit
  CommitPoint := Unit
  PcsParams := Unit
  PiopParams := Unit
  PK := Unit
  VK := Unit
  Transcript := Unit
  pedersenSign := fun _ _ _ => ((), ())
  pedersenVerify := fun _ _ _ => Except.ok ()
  keyCommitment := fun _ => ()
  xy := fun _ => some (false, false)
  publicOf := fun _ => BaseAffine.new_unchecked false false
  prove := fun _ _ => ()
  verifyRingProof := fun _ _ _ => rv
  indexFn := fun _ _ _ => ((), ())
  domainOf := fun _ => 4
  paddingPoint := fun _ => BaseAffine.new_unchecked false false
  proverInit := fun _ _ _ _ => ()
  verifierInit := fun _ _ _ => ()
  transcriptNew := fun _ => ()

/-- A ring context over `toy rv` with domain size 4. -/
def toyCtx (rv : Bool) : RingContext (toy rv) :=
  { pcs_params := (), piop_params := (), domain_size := 4 }

/-! ## Helper lemmas about `ring_verify` -/

lemma ring_verify_ped_error {A : Ark} {input : A.Input} {ad : A.AD}
    {sig : Signature A.PedSig A.RingProofTy} {V : A.VerifierSt} {e : Error}
    (h : A.pedersenVerify input ad sig.vrf_signature = Except.error e) :
    ring_verify A input ad sig V = Except.error e := by
  unfold ring_verify
  rw [h]

lemma ring_verify_xy_none {A : Ark} {input : A.Input} {ad : A.AD}
    {sig : Signature A.PedSig A.RingProofTy} {V : A.VerifierSt}
    (hp : A.pedersenVerify input ad sig.vrf_signature = Except.ok ())
    (hx : A.xy (A.keyCommitment sig.vrf_signature) = none) :
    ring_verify A input ad sig V = Except.error Error.VerificationFailure := by
  unfold ring_verify
  rw [hp, hx]

lemma ring_verify_xy_some {A : Ark} {input : A.Input} {ad : A.AD}
    {sig : Signature A.PedSig A.RingProofTy} {V : A.VerifierSt} {x y : A.F}
    (hp : A.pedersenVerify input ad sig.vrf_signature = Except.ok ())
    (hx : A.xy (A.keyCommitment sig.vrf_signature) = some (x, y)) :
    ring_verify A input ad sig V =
      if A.verifyRingProof V sig.ring_proof (BaseAffine.new_unchecked x y) then
        Except.ok ()
      else
        Except.error Error.VerificationFailure := by
  unfold ring_verify
  rw [hp, hx]

/-! ## Claim theorems -/

/-- C1: `ring_verify` succeeds iff the blinded-VRF (Pedersen) check passes,
the extracted key-commitment point has affine coordinates (is not the
identity), and ring-proof verification of the re-expressed commitment
returns `true`; every failure is the single error `VerificationFailure`; a
failed earlier check determines the result regardless of the ring verifier
(the later check is skipped). -/
theorem C1_ring_verify_characterization (A : Ark) (input : A.Input) (ad : A.AD)
    (sig : Signature A.PedSig A.RingProofTy) (V : A.VerifierSt) :
    (ring_verify A input ad sig V = Except.ok () ↔
      (A.pedersenVerify input ad sig.vrf_signature = Except.ok () ∧
        ∃ x y, A.xy (A.keyCommitment sig.vrf_signature) = some (x, y) ∧
          A.verifyRingProof V sig.ring_proof (BaseAffine.new_unchecked x y) = true)) ∧
    (∀ e, ring_verify A input ad sig V = Except.error e →
      e = Error.VerificationFailure) ∧
    ((∃ e, A.pedersenVerify input ad sig.vrf_signature = Except.error e) →
      ∀ V2, ring_verify A input ad sig V2 = Except.error Error.VerificationFailure) ∧
    (A.pedersenVerify input ad sig.vrf_signature = Except.ok () →
      A.xy (A.keyCommitment sig.vrf_signature) = none →
      ∀ V2, ring_verify A input ad sig V2 = Except.error Error.VerificationFailure) := by
  refine ⟨⟨?_, ?_⟩, ?_, ?_, ?_⟩
  · intro h
    cases hp : A.pedersenVerify input ad sig.vrf_signature with
    | error e =>
      rw [ring_verify_ped_error hp] at h
      exact absurd h (by simp)
    | ok u =>
      cases u
      cases hx : A.xy (A.keyCommitment sig.vrf_signature) with
      | none =>
        rw [ring_verify_xy_none hp hx] at h
        exact absurd h (by simp)
      | some p =>
        obtain ⟨x, y⟩ := p
        rw [ring_verify_xy_some hp hx] at h
        by_cases hv :
            A.verifyRingProof V sig.ring_proof (BaseAffine.new_unchecked x y) = true
        · exact ⟨rfl, x, y, rfl, hv⟩
        · rw [if_neg hv] at h
          exact absurd h (by simp)
  · rintro ⟨hp, x, y, hx, hv⟩
    rw [ring_verify_xy_some hp hx, if_pos hv]
  · intro e _
    cases e
    rfl
  · rintro ⟨e, hp⟩ V2
    cases e
    exact ring_verify_ped_error hp
  · intro hp hx V2
    exact ring_verify_xy_none hp hx

/-- C1 witness: in the concrete configuration `toy true`, all three checks
pass and `ring_verify` succeeds, via the success characterization. -/
theorem C1_witness :
    ring_verify (toy true) false false
      { vrf_signature := (), ring_proof := () } () = Except.ok () :=
  (C1_ring_verify_characterization (toy true) false false
    { vrf_signature := (), ring_proof := () } ()).1.mpr
    ⟨rfl, false, false, rfl, rfl⟩

/-- C2: `ring_sign` runs Pedersen signing, generates the ring proof by
running the prover over exactly the returned blinding secret, and returns the
`Signature` record of the two — unconditionally, with no error outcome. -/
theorem C2_ring_sign_composition (A : Ark) (secret : A.Secret) (input : A.Input)
    (ad : A.AD) (ring_prover : A.ProverSt) :
    ring_sign A secret input ad ring_prover =
      { vrf_signature := (A.pedersenSign secret input ad).1,
        ring_proof := A.prove ring_prover (A.pedersenSign secret input ad).2 } :=
  rfl

/-- C10: the point handed to ring-proof verification is built from exactly
the affine coordinates of the extracted key commitment with the unchecked
short-Weierstrass constructor, which preserves the coordinates verbatim for
every pair of field elements and performs no validation. -/
theorem C10_unchecked_reexpression (A : Ark) (input : A.Input) (ad : A.AD)
    (sig : Signature A.PedSig A.RingProofTy) (V : A.VerifierSt) (x y : A.F)
    (hped : A.pedersenVerify input ad sig.vrf_signature = Except.ok ())
    (hxy : A.xy (A.keyCommitment sig.vrf_signature) = some (x, y)) :
    (∀ a b : A.F,
      (BaseAffine.new_unchecked a b).x = a ∧
      (BaseAffine.new_unchecked a b).y = b ∧
      (BaseAffine.new_unchecked a b).infinity = false) ∧
    ring_verify A input ad sig V =
      (if A.verifyRingProof V sig.ring_proof (BaseAffine.new_unchecked x y) then
        Except.ok ()
      else
        Except.error Error.VerificationFailure) :=
  ⟨fun _ _ => ⟨rfl, rfl, rfl⟩, ring_verify_xy_some hped hxy⟩

/-- C10 witness: the re-expression property evaluated in the concrete
configuration `toy true`. -/
theorem C10_witness :
    (∀ a b : Bool,
      (BaseAffine.new_unchecked a b).x = a ∧
      (BaseAffine.new_unchecked a b).y = b ∧
      (BaseAffine.new_unchecked a b).infinity = false) ∧
    ring_verify (toy true) false false
      { vrf_signature := (), ring_proof := () } () =
      (if (toy true).verifyRingProof () ()
          (BaseAffine.new_unchecked false false) then
        Except.ok ()
      else
        Except.error Error.VerificationFailure) :=
  C10_unchecked_reexpression (toy true) false false
    { vrf_signature := (), ring_proof := () } () false false rfl rfl

lemma taiFrom_succ (S : HSuite) (data : List UInt8) (ctr fuel : Nat) :
    taiFrom S data ctr (fuel + 1) =
      if (S.hash (taiBuf S data ctr)).length < S.modSize then (none, 1)
      else
        match S.deserialize (S.hash (taiBuf S data ctr)) with
        | some pt => (some (S.clearCofactor pt), 1)
        | none =>
          ((taiFrom S data (ctr + 1) fuel).1, (taiFrom S data (ctr + 1) fuel).2 + 1) :=
  rfl

lemma taiFrom_eq_claim (S : HSuite) (data : List UInt8)
    (hlen : ∀ b, S.modSize ≤ (S.hash b).length) :
    ∀ fuel ctr, (taiFrom S data ctr fuel).1 = taiClaimFrom S data ctr fuel := by
  intro fuel
  induction fuel with
  | zero => intro ctr; rfl
  | succ n ih =>
    intro ctr
    simp only [taiFrom, taiClaimFrom]
    rw [if_neg (Nat.not_lt.mpr (hlen _))]
    cases hd : S.deserialize (S.hash (taiBuf S data ctr)) with
    | some pt => rfl
    | none => exact ih (ctr + 1)

/-- C5: for a suite whose hash digests are never shorter than `mod_size`
(the suite conformance requirement of spec §4.1, stated as a precondition by
the source's own doc comment), `hash_to_curve_tai` computes exactly the
claim's algorithm: per counter in `0..256`, hash the buffer
`suite.id || 0x01 || data || ctr || 0x00`, try to decode the digest as a
compressed point, return the first decoded point with its cofactor cleared,
and return `none` when all 256 counters fail. -/
theorem C5_tai_algorithm (S : HSuite) (data : List UInt8)
    (hlen : ∀ b, S.modSize ≤ (S.hash b).length) :
    hash_to_curve_tai S data = taiClaim S data :=
  taiFrom_eq_claim S data hlen 256 0

/-- C5 witness: the two algorithms agree on `unitSuite` (2-byte digests,
`mod_size = 1`) at the empty input. -/
theorem C5_witness : hash_to_curve_tai unitSuite [] = taiClaim unitSuite [] :=
  C5_tai_algorithm unitSuite [] (fun _ => Nat.le_succ 1)

/-- C6 counterexample: in the suite `fifteenBitSuite` the base-field modulus
has byte length 2 while every digest has length 1, yet `hash_to_curve_tai`
does not return `none` on the first counter: the source compares the digest
length against `MODULUS_BIT_SIZE / 8 = 1` (floor division), the guard does
not fire, and the decode succeeds. -/
theorem C6_counterexample :
    ¬ ((fifteenBitSuite.hash (taiBuf fifteenBitSuite [] 0)).length <
        (fifteenBitSuite.modulusBitSize + 7) / 8 →
      hash_to_curve_tai fifteenBitSuite [] = none ∧
        taiIterations fifteenBitSuite [] = 1) := by
  intro h
  have hc := (h (by decide)).1
  have hs : hash_to_curve_tai fifteenBitSuite [] = some () := rfl
  rw [hs] at hc
  exact Option.noConfusion hc

/-- C6 amended: for every suite and input, if the digest of the first
counter's buffer is shorter than `MODULUS_BIT_SIZE / 8` (integer, i.e. floor,
division — not the ceiling byte length of the modulus), then
`hash_to_curve_tai` returns `none` immediately, on the first counter, as an
optional result. -/
theorem C6_short_digest_immediate_none (S : HSuite) (data : List UInt8)
    (h : (S.hash (taiBuf S data 0)).length < S.modSize) :
    hash_to_curve_tai S data = none ∧ taiIterations S data = 1 := by
  unfold hash_to_curve_tai taiIterations
  rw [show (256 : Nat) = 255 + 1 from rfl, taiFrom_succ, if_pos h]
  exact ⟨rfl, rfl⟩

/-- C6 witness: on `shortHashSuite` (1-byte digests, `mod_size = 2`) the
loop exits with `none` on its first iteration. -/
theorem C6_witness :
    hash_to_curve_tai shortHashSuite [] = none ∧
      taiIterations shortHashSuite [] = 1 :=
  C6_short_digest_immediate_none shortHashSuite [] (by decide)

lemma taiFrom_mem_subgroup (S : HSuite) (data : List UInt8)
    (hD : ∀ b pt, S.deserialize b = some pt → S.isOnCurve pt = true)
    (hC : ∀ pt, S.isOnCurve pt = true →
      S.isOnCurve (S.clearCofactor pt) = true ∧
        S.isInSubgroup (S.clearCofactor pt) = true) :
    ∀ fuel ctr P, (taiFrom S data ctr fuel).1 = some P →
      S.isOnCurve P = true ∧ S.isInSubgroup P = true := by
  intro fuel
  induction fuel with
  | zero => intro ctr P h; exact Option.noConfusion h
  | succ n ih =>
    intro ctr P h
    simp only [taiFrom] at h
    by_cases hl : (S.hash (taiBuf S data ctr)).length < S.modSize
    · rw [if_pos hl] at h
      exact absurd h (by simp)
    · rw [if_neg hl] at h
      cases hd : S.deserialize (S.hash (taiBuf S data ctr)) with
      | some pt =>
        rw [hd] at h
        have hP : S.clearCofactor pt = P := by
          simpa using h
        rw [← hP]
        exact hC pt (hD _ pt hd)
      | none =>
        rw [hd] at h
        exact ih (ctr + 1) P h

/-- C7: whenever `hash_to_curve_tai` returns a point, that point is on the
curve and in the prime-order subgroup — given the library contracts that
compressed deserialization only yields on-curve points and that cofactor
clearing maps on-curve points to on-curve points of the prime-order
subgroup. -/
theorem C7_output_in_subgroup (S : HSuite) (data : List UInt8) (P : S.Point)
    (hD : ∀ b pt, S.deserialize b = some pt → S.isOnCurve pt = true)
    (hC : ∀ pt, S.isOnCurve pt = true →
      S.isOnCurve (S.clearCofactor pt) = true ∧
        S.isInSubgroup (S.clearCofactor pt) = true)
    (h : hash_to_curve_tai S data = some P) :
    S.isOnCurve P = true ∧ S.isInSubgroup P = true :=
  taiFrom_mem_subgroup S data hD hC 256 0 P h

/-- C7 witness: on `unitSuite`, hashing the empty input yields its point,
which is on the curve and in the subgroup. -/
theorem C7_witness :
    unitSuite.isOnCurve () = true ∧ unitSuite.isInSubgroup () = true :=
  C7_output_in_subgroup unitSuite [] ()
    (fun _ _ _ => rfl) (fun _ _ => ⟨rfl, rfl⟩) rfl

/-- C3: round-trip. With a ring of `N ≤ domain_size` public keys containing
the signer's key at position `k`, prover and verifier keys both derived from
that list, a prover built at index `k`, and the external primitives meeting
their contracts — Pedersen completeness, a non-identity key commitment, and
ring-proof completeness for the blinding secret produced by the signing call —
`ring_verify` accepts `ring_sign`'s output for every input and associated
data. -/
theorem C3_round_trip (A : Ark) (ctx : RingContext A)
    (pks : List (BaseAffine A.F)) (k : Nat) (secret : A.Secret)
    (input : A.Input) (ad : A.AD) (pkey : A.PK) (vkey : A.VK) (x y : A.F)
    (hN : pks.length ≤ ctx.domain_size)
    (hdom : A.domainOf ctx.piop_params = ctx.domain_size)
    (hk : pks.get? k = some (A.publicOf secret))
    (hpk : ctx.prover_key pks = some pkey)
    (hvk : ctx.verifier_key pks = some vkey)
    (hped : A.pedersenVerify input ad (A.pedersenSign secret input ad).1 =
      Except.ok ())
    (hxy : A.xy (A.keyCommitment (A.pedersenSign secret input ad).1) =
      some (x, y))
    (hring : A.verifyRingProof (ctx.verifier vkey)
      (A.prove (ctx.prover pkey k) (A.pedersenSign secret input ad).2)
      (BaseAffine.new_unchecked x y) = true) :
    ring_verify A input ad (ring_sign A secret input ad (ctx.prover pkey k))
      (ctx.verifier vkey) = Except.ok () := by
  have hped2 : A.pedersenVerify input ad
      (ring_sign A secret input ad (ctx.prover pkey k)).vrf_signature =
      Except.ok () := hped
  have hxy2 : A.xy (A.keyCommitment
      (ring_sign A secret input ad (ctx.prover pkey k)).vrf_signature) =
      some (x, y) := hxy
  have hcond : A.verifyRingProof (ctx.verifier vkey)
      (ring_sign A secret input ad (ctx.prover pkey k)).ring_proof
      (BaseAffine.new_unchecked x y) = true := hring
  rw [ring_verify_xy_some hped2 hxy2, if_pos hcond]

/-- C3 witness: the round trip evaluated in the concrete configuration
`toy true` with a singleton ring holding the signer's key at index 0. -/
theorem C3_round_trip_witness :
    ring_verify (toy true) false false
      (ring_sign (toy true) false false false ((toyCtx true).prover () 0))
      ((toyCtx true).verifier ()) = Except.ok () :=
  C3_round_trip (toy true) (toyCtx true)
    [BaseAffine.new_unchecked false false] 0 false false false () () false false
    (by decide) rfl rfl rfl rfl rfl rfl rfl

/-- C4: deriving a prover key or a verifier key rejects (with the empty
outcome of the modelled `ring_proof::index`) exactly the rings whose member
count exceeds the context's domain size, at the key-derivation call itself. -/
theorem C4_key_derivation_rejects_oversize (A : Ark) (ctx : RingContext A)
    (pks : List (BaseAffine A.F))
    (hdom : A.domainOf ctx.piop_params = ctx.domain_size) :
    (ctx.prover_key pks = none ↔ ctx.domain_size < pks.length) ∧
    (ctx.verifier_key pks = none ↔ ctx.domain_size < pks.length) := by
  unfold RingContext.prover_key RingContext.verifier_key index
  rw [hdom]
  by_cases hgt : ctx.domain_size < pks.length
  · rw [if_pos hgt]
    simp [hgt]
  · rw [if_neg hgt]
    simp [hgt]

/-- C4 witness: over the domain-size-4 context, derivation from a ring of 5
members is rejected and derivation from a singleton ring is not. -/
theorem C4_witness :
    (((toyCtx true).prover_key
        (List.replicate 5 (BaseAffine.new_unchecked false false)) = none ↔
      (toyCtx true).domain_size <
        (List.replicate 5 (BaseAffine.new_unchecked false false)).length) ∧
    ((toyCtx true).verifier_key
        (List.replicate 5 (BaseAffine.new_unchecked false false)) = none ↔
      (toyCtx true).domain_size <
        (List.replicate 5 (BaseAffine.new_unchecked false false)).length)) :=
  C4_key_derivation_rejects_oversize (toy true) (toyCtx true)
    (List.replicate 5 (BaseAffine.new_unchecked false false)) rfl

/-- C8: `prover_key` and `verifier_key` are deterministic functions of the
context and the ordered key list, equal respectively to the first and second
components of one and the same `ring_proof::index` call on the padded list;
whenever both succeed they recombine into exactly that single indexing, so
independently derived prover and verifier keys form a matching pair. -/
theorem C8_matching_pair (A : Ark) (ctx : RingContext A)
    (pks : List (BaseAffine A.F)) :
    ctx.prover_key pks = (index A ctx.pcs_params ctx.piop_params pks).map Prod.fst ∧
    ctx.verifier_key pks = (index A ctx.pcs_params ctx.piop_params pks).map Prod.snd ∧
    (∀ pks2, pks2 = pks →
      ctx.prover_key pks2 = ctx.prover_key pks ∧
      ctx.verifier_key pks2 = ctx.verifier_key pks) ∧
    (∀ pk vk, ctx.prover_key pks = some pk → ctx.verifier_key pks = some vk →
      index A ctx.pcs_params ctx.piop_params pks = some (pk, vk)) := by
  refine ⟨rfl, rfl, fun pks2 h => by rw [h]; exact ⟨rfl, rfl⟩, ?_⟩
  intro pk vk hpk hvk
  unfold RingContext.prover_key at hpk
  unfold RingContext.verifier_key at hvk
  cases hi : index A ctx.pcs_params ctx.piop_params pks with
  | none =>
    rw [hi] at hpk
    exact Option.noConfusion hpk
  | some p =>
    obtain ⟨a, b⟩ := p
    rw [hi] at hpk hvk
    have h1 : a = pk := by simpa using hpk
    have h2 : b = vk := by simpa using hvk
    rw [h1, h2]

/-- C8 witness: the matching-pair property evaluated on the concrete context
with a singleton ring. -/
theorem C8_witness :
    (toyCtx true).prover_key [BaseAffine.new_unchecked false false] =
      (index (toy true) () () [BaseAffine.new_unchecked false false]).map Prod.fst ∧
    (toyCtx true).verifier_key [BaseAffine.new_unchecked false false] =
      (index (toy true) () () [BaseAffine.new_unchecked false false]).map Prod.snd ∧
    (∀ pks2, pks2 = [BaseAffine.new_unchecked false false] →
      (toyCtx true).prover_key pks2 =
        (toyCtx true).prover_key [BaseAffine.new_unchecked false false] ∧
      (toyCtx true).verifier_key pks2 =
        (toyCtx true).verifier_key [BaseAffine.new_unchecked false false]) ∧
    (∀ pk vk,
      (toyCtx true).prover_key [BaseAffine.new_unchecked false false] = some pk →
      (toyCtx true).verifier_key [BaseAffine.new_unchecked false false] = some vk →
      index (toy true) () () [BaseAffine.new_unchecked false false] =
        some (pk, vk)) :=
  C8_matching_pair (toy true) (toyCtx true) [BaseAffine.new_unchecked false false]

/-- C9: a prover bound to an index that does not hold the signer's public key
still signs without any error or check — `RingContext::prover` is plain
initialization and `ring_sign` returns the composed signature for every
index — and, when ring-proof verification rejects that proof (soundness of
the external ring proof), verifying the signature yields
`VerificationFailure`. -/
theorem C9_wrong_index_detected_at_verify (A : Ark) (ctx : RingContext A)
    (pks : List (BaseAffine A.F)) (k : Nat) (secret : A.Secret)
    (input : A.Input) (ad : A.AD) (pkey : A.PK) (vkey : A.VK) (x y : A.F)
    (hwrong : pks.get? k ≠ some (A.publicOf secret))
    (hped : A.pedersenVerify input ad (A.pedersenSign secret input ad).1 =
      Except.ok ())
    (hxy : A.xy (A.keyCommitment (A.pedersenSign secret input ad).1) =
      some (x, y))
    (hsound : A.verifyRingProof (ctx.verifier vkey)
      (A.prove (ctx.prover pkey k) (A.pedersenSign secret input ad).2)
      (BaseAffine.new_unchecked x y) = false) :
    ring_sign A secret input ad (ctx.prover pkey k) =
      { vrf_signature := (A.pedersenSign secret input ad).1,
        ring_proof := A.prove (ctx.prover pkey k)
          (A.pedersenSign secret input ad).2 } ∧
    ctx.prover pkey k =
      A.proverInit pkey ctx.piop_params k (A.transcriptNew "ring-vrf") ∧
    ring_verify A input ad (ring_sign A secret input ad (ctx.prover pkey k))
      (ctx.verifier vkey) = Except.error Error.VerificationFailure := by
  refine ⟨rfl, rfl, ?_⟩
  have hped2 : A.pedersenVerify input ad
      (ring_sign A secret input ad (ctx.prover pkey k)).vrf_signature =
      Except.ok () := hped
  have hxy2 : A.xy (A.keyCommitment
      (ring_sign A secret input ad (ctx.prover pkey k)).vrf_signature) =
      some (x, y) := hxy
  have hcond : A.verifyRingProof (ctx.verifier vkey)
      (ring_sign A secret input ad (ctx.prover pkey k)).ring_proof
      (BaseAffine.new_unchecked x y) = false := hsound
  rw [ring_verify_xy_some hped2 hxy2, hcond]
  simp

/-- C9 witness: in the configuration `toy false` (rejecting ring verifier),
signing with a prover bound to index 0 of the empty list succeeds and the
resulting signature fails verification with `VerificationFailure`. -/
theorem C9_witness :
    ring_verify (toy false) false false
      (ring_sign (toy false) false false false ((toyCtx false).prover () 0))
      ((toyCtx false).verifier ()) = Except.error Error.VerificationFailure :=
  (C9_wrong_index_detected_at_verify (toy false) (toyCtx false) [] 0 false
    false false () () false false (fun h => Option.noConfusion h)
    rfl rfl rfl).2.2

end ArkEcVrfs
